import Mathlib

/-!
# Run Control Plane — shallow embedding and verification

This file embeds the Run Control Plane of the workflow dashboard (the server
action layer: configuration fingerprinting, the World instance cache, the
error classifier, the response envelope, and the wake-up reconciler) as
executable Lean definitions, and proves or refutes the specified properties.

Modelling conventions:
* JavaScript objects / `Record<string, T>` values are modelled as association
  lists with distinct keys (`List (String × Option String)` for env maps);
  `undefined` is `none`.
* `process.env` is modelled as a function `String → Option String`.
* The execution store is an external collaborator; store reads (the run and
  its first page of events) are inputs to the model, and store writes
  (event creation, queueing) are recorded as an emitted operation list.
* JS string comparison (used by `Array.prototype.sort`) is modelled by a
  lexicographic comparison of the character sequences.
-/

/-! ## Lexicographic string order (model of the default JS sort comparator) -/

/-- Lexicographic comparison of character lists by code point, the order the
default `Array.prototype.sort` comparator induces on the ASCII keys used here. -/
def strLeAux : List Char → List Char → Bool
  | [], _ => true
  | _ :: _, [] => false
  | a :: as, b :: bs =>
      if a < b then true
      else if b < a then false
      else strLeAux as bs

/-- Relation `strLe a b` holds when `a` sorts no later than `b` in JS string order. -/
def strLe (a b : String) : Prop := strLeAux a.toList b.toList = true

instance : DecidableRel strLe := fun a b => inferInstanceAs (Decidable (_ = true))

theorem strLeAux_cons (a b : Char) (as bs : List Char) :
    strLeAux (a :: as) (b :: bs) = true ↔ a < b ∨ (a = b ∧ strLeAux as bs = true) := by
  by_cases h1 : a < b
  · simp [strLeAux, h1]
  · by_cases h2 : b < a
    · have : a ≠ b := fun he => absurd (he ▸ h2) (lt_irrefl _)
      simp [strLeAux, h1, h2, this]
    · have : a = b := le_antisymm (le_of_not_lt h2) (le_of_not_lt h1)
      simp [strLeAux, h1, h2, this]

theorem strLeAux_total (x y : List Char) : strLeAux x y = true ∨ strLeAux y x = true := by
  induction x generalizing y with
  | nil => left; rfl
  | cons a as ih =>
      cases y with
      | nil => right; rfl
      | cons b bs =>
          rcases lt_trichotomy a b with h | h | h
          · left; rw [strLeAux_cons]; exact Or.inl h
          · subst h
            rcases ih bs with h2 | h2
            · left; rw [strLeAux_cons]; exact Or.inr ⟨rfl, h2⟩
            · right; rw [strLeAux_cons]; exact Or.inr ⟨rfl, h2⟩
          · right; rw [strLeAux_cons]; exact Or.inl h

theorem strLeAux_antisymm (x y : List Char) (h1 : strLeAux x y = true)
    (h2 : strLeAux y x = true) : x = y := by
  induction x generalizing y with
  | nil =>
      cases y with
      | nil => rfl
      | cons b bs => simp [strLeAux] at h2
  | cons a as ih =>
      cases y with
      | nil => simp [strLeAux] at h1
      | cons b bs =>
          rw [strLeAux_cons] at h1 h2
          rcases h1 with h | ⟨he, h⟩
          · rcases h2 with h2 | ⟨he2, h2⟩
            · exact absurd h2 (not_lt_of_lt h)
            · exact absurd (he2 ▸ h) (lt_irrefl _)
          · subst he
            rcases h2 with h2 | ⟨_, h2⟩
            · exact absurd h2 (lt_irrefl _)
            · rw [ih bs h h2]

theorem strLeAux_trans (x y z : List Char) (h1 : strLeAux x y = true)
    (h2 : strLeAux y z = true) : strLeAux x z = true := by
  induction x generalizing y z with
  | nil => rfl
  | cons a as ih =>
      cases y with
      | nil => simp [strLeAux] at h1
      | cons b bs =>
          cases z with
          | nil => simp [strLeAux] at h2
          | cons c cs =>
              rw [strLeAux_cons] at h1 h2 ⊢
              rcases h1 with h1 | ⟨he1, h1⟩
              · rcases h2 with h2 | ⟨he2, h2⟩
                · exact Or.inl (lt_trans h1 h2)
                · exact Or.inl (he2 ▸ h1)
              · subst he1
                rcases h2 with h2 | ⟨he2, h2⟩
                · exact Or.inl h2
                · exact Or.inr ⟨he2, ih bs cs h1 h2⟩

instance : IsTotal String strLe := ⟨fun a b => strLeAux_total a.toList b.toList⟩

instance : IsTrans String strLe := ⟨fun a b c => strLeAux_trans a.toList b.toList c.toList⟩

instance : IsAntisymm String strLe :=
  ⟨fun a b h1 h2 => by
    have h := strLeAux_antisymm a.toList b.toList h1 h2
    exact String.ext (by simpa [String.toList] using h)⟩

/-! ## JSON serialization of a flat string map (model of `JSON.stringify`) -/

/-- Lowercase hex digit, used by the control-character escapes of
`JSON.stringify`. -/
def hexDigit (n : Nat) : Char :=
  if n < 10 then Char.ofNat (48 + n) else Char.ofNat (87 + n)

/-- Escape of a single character inside a JSON string literal, following
`JSON.stringify`. -/
def escapeJsonChar (c : Char) : String :=
  if c = '"' then "\\\""
  else if c = '\\' then "\\\\"
  else if c = '\x08' then "\\b"
  else if c = '\x09' then "\\t"
  else if c = '\x0a' then "\\n"
  else if c = '\x0c' then "\\f"
  else if c = '\x0d' then "\\r"
  else if c.toNat < 32 then
    "\\u00" ++ String.singleton (hexDigit (c.toNat / 16)) ++ String.singleton (hexDigit (c.toNat % 16))
  else String.singleton c

/-- A JSON string literal for `s`. -/
def jsonQuote (s : String) : String :=
  "\"" ++ String.join (s.toList.map escapeJsonChar) ++ "\""

/-- Model of `JSON.stringify` of a flat object whose (already key-ordered) entries all
hold string values. Entries with `undefined` values are dropped by
`JSON.stringify` before this point. -/
def jsonStringifyObj (entries : List (String × String)) : String :=
  "\x7b" ++ String.intercalate "," (entries.map (fun p => jsonQuote p.1 ++ ":" ++ jsonQuote p.2)) ++ "\x7d"

/-! ## Config Resolver (`buildEnvMapFromProcessEnv`, `getWorldFromEnv` lines 278-313) -/

/-- Environment variable map for world configuration (`EnvMap` in the source):
an object whose values may be `undefined`. -/
def EnvMap : Type := List (String × Option String)

instance : DecidableEq EnvMap := inferInstanceAs (DecidableEq (List (String × Option String)))

instance : Membership (String × Option String) EnvMap :=
  inferInstanceAs (Membership (String × Option String) (List (String × Option String)))

instance : Append EnvMap := inferInstanceAs (Append (List (String × Option String)))

/-- The process-wide named settings read by `buildEnvMapFromProcessEnv`, in
source order. -/
def serverEnvKeys : List String :=
  ["WORKFLOW_TARGET_WORLD", "WORKFLOW_VERCEL_ENV", "WORKFLOW_VERCEL_AUTH_TOKEN",
   "WORKFLOW_VERCEL_PROJECT", "WORKFLOW_VERCEL_TEAM", "PORT",
   "WORKFLOW_MANIFEST_PATH", "WORKFLOW_LOCAL_DATA_DIR", "WORKFLOW_POSTGRES_URL"]

/-- Source `buildEnvMapFromProcessEnv`: the object literal reading the nine
process-wide settings from `process.env`. -/
def buildEnvMapFromProcessEnv (procEnv : String → Option String) : EnvMap :=
  serverEnvKeys.map (fun k => (k, procEnv k))

/-- Model of `Object.values(serverEnvMap).some((v) => v !== undefined && v !== '')`. -/
def hasServerConfig (m : EnvMap) : Bool :=
  m.any (fun p => match p.2 with
    | some v => !(v == "")
    | none => false)

/-- The effective configuration chosen by `getWorldFromEnv`:
`hasServerConfig ? serverEnvMap : envMap`. -/
def effectiveEnvMap (procEnv : String → Option String) (envMap : EnvMap) : EnvMap :=
  if hasServerConfig (buildEnvMapFromProcessEnv procEnv) then
    buildEnvMapFromProcessEnv procEnv
  else envMap

/-- The entry that `JSON.stringify(Object.fromEntries(sortedEntries))`
serializes for key `k` of map `m`: present exactly when `m` binds `k` to a
defined value. -/
def definedEntry (m : EnvMap) (k : String) : Option (String × String) :=
  match List.lookup k m with
  | some (some v) => some (k, v)
  | _ => none

/-- The cache key of `getWorldFromEnv`: keys sorted, then
`JSON.stringify(Object.fromEntries(sortedEntries))` (which drops
`undefined`-valued entries). -/
def cacheKey (m : EnvMap) : String :=
  jsonStringifyObj ((List.insertionSort strLe (m.map Prod.fst)).filterMap (definedEntry m))

/-! ## Instance Cache (`worldCache` and `getWorldFromEnv` lines 258-313) -/

/-- The process-wide mutable state touched by `getWorldFromEnv`: the
`worldCache` map, the ambient `process.env`, and an allocation counter giving
each constructed World handle a distinct identity. -/
structure CacheState where
  worldCache : List (String × Nat)
  nextWorldId : Nat
  procEnv : String → Option String

/-- The env-application loop of `getWorldFromEnv`: every defined, non-empty
value of the effective map is written into `process.env`, in entry order. -/
def applyEnvMap (m : EnvMap) (env : String → Option String) : String → Option String :=
  m.foldl (fun acc p => match p.2 with
    | none => acc
    | some v => if v = "" then acc else fun k => if k = p.1 then some v else acc k) env

/-- Source `getWorldFromEnv`: compute the effective configuration and its cache key,
return the cached World on a hit; on a miss apply the configuration to
`process.env`, construct a World, cache it and return it.

Modelled from the spec: the external `createWorld` factory (the execution
store is outside this repository) is modelled as allocating a fresh handle —
identified by the allocation counter — on every call. -/
def getWorldFromEnv (envMap : EnvMap) (s : CacheState) : Nat × CacheState :=
  let effective := effectiveEnvMap s.procEnv envMap
  let key := cacheKey effective
  match List.lookup key s.worldCache with
  | some w => (w, s)
  | none =>
      (s.nextWorldId,
        { worldCache := (key, s.nextWorldId) :: s.worldCache
          nextWorldId := s.nextWorldId + 1
          procEnv := applyEnvMap effective s.procEnv })

/-- The cache key a call `getWorldFromEnv envMap s` computes. -/
def effectiveCacheKey (envMap : EnvMap) (s : CacheState) : String :=
  cacheKey (effectiveEnvMap s.procEnv envMap)

/-- Well-formedness of the cache state: cached handle identities are pairwise
distinct and below the allocation counter. Holds of the initial empty state
and is preserved by `getWorldFromEnv`. -/
def CacheWF (s : CacheState) : Prop :=
  (s.worldCache.map Prod.snd).Nodup ∧ ∀ p ∈ s.worldCache, p.2 < s.nextWorldId

/-! ## Error Classifier (`createServerActionError`, `getUserFacingErrorMessage`) -/

/-- Whether `pat` occurs at the start of a character list
(`String.prototype.startsWith` on the remaining suffix). -/
def leadsChars : List Char → List Char → Bool
  | [], _ => true
  | _ :: _, [] => false
  | a :: as, b :: bs => a == b && leadsChars as bs

/-- Whether `pat` occurs anywhere in a character list. -/
def occursChars (pat : List Char) : List Char → Bool
  | [] => pat.isEmpty
  | c :: cs => leadsChars pat (c :: cs) || occursChars pat cs

/-- Model of `s.includes(pat)` of JS strings. -/
def strContains (s pat : String) : Bool := occursChars pat.toList s.toList

/-- The raised failures the classifier distinguishes: a `WorkflowAPIError`
(the store-boundary marker, carrying optional `status`, `url`, `code`), a
`WorkflowRunNotFoundError`, and anything else (normalized to an `Error` with a
message and an optional stack trace). -/
inductive RawFailure where
  | apiError (message : String) (stack : Option String) (status : Option Nat)
      (url : Option String) (code : Option String)
  | runNotFound (message : String) (stack : Option String)
  | other (message : String) (stack : Option String)
deriving DecidableEq, Repr

/-- The `layer` tag of a classified error: `'server'` when the failure
originates in the server-action file, `'API'` (the spec calls this layer
"store") when it originates at the World boundary. -/
inductive ErrorLayer where
  | server
  | API
deriving DecidableEq, Repr

/-- The `request` context recorded on every classified error. Request params
(`Record<string, any>`) are modelled as an association list. -/
structure RequestInfo where
  operation : String
  params : List (String × String)
  status : Option Nat
  url : Option String
  code : Option String
deriving DecidableEq, Repr

/-- Source `ServerActionError`: the structured, client-safe error record. The
classifier populates every field, so `cause` and `request` are total here. -/
structure ServerActionError where
  message : String
  layer : ErrorLayer
  cause : String
  request : RequestInfo
deriving DecidableEq, Repr

/-- Model of `err.stack || err.message`. -/
def causeText (message : String) (stack : Option String) : String :=
  match stack with
  | some s => if s = "" then message else s
  | none => message

/-- Source `getUserFacingErrorMessage(error, status?)`: converts an error into a
user-facing message. `!status` is true for an absent status and for `0`. -/
def getUserFacingErrorMessage (message : String) (status : Option Nat) : String :=
  if status = none ∨ status = some 0 then "Error creating response: " ++ message
  else if status = some 403 ∨ status = some 401 then
    "Access denied. Please check your credentials and permissions."
  else if status = some 404 then "The requested resource was not found."
  else if status = some 500 then "Error connecting to World backend, please try again later."
  else if strContains message "Network" || strContains message "fetch" then
    "Network error. Please check your connection and try again."
  else if message = "" then "An unexpected error occurred"
  else message

/-- Source `createServerActionError(error, operation, requestParams?)`: the decision
chain `WorkflowAPIError.is` / `WorkflowRunNotFoundError.is` / fallback. The
source wraps this record as `{ success: false, error }`; the embedding
returns the record itself. -/
def createServerActionError (error : RawFailure) (operation : String)
    (requestParams : Option (List (String × String))) : ServerActionError :=
  match error with
  | .apiError message stack status url code =>
      { message := getUserFacingErrorMessage message status
        layer := .API
        cause := causeText message stack
        request := { operation, params := requestParams.getD [], status, url, code } }
  | .runNotFound message stack =>
      { message := getUserFacingErrorMessage message (some 404)
        layer := .API
        cause := causeText message stack
        request := { operation, params := requestParams.getD [], status := some 404,
                     url := none, code := none } }
  | .other message stack =>
      { message := getUserFacingErrorMessage message none
        layer := .server
        cause := causeText message stack
        request := { operation, params := requestParams.getD [], status := some 500,
                     url := none, code := none } }

/-! ## Response Envelope (`toJSONCompatible`, `createResponse`) -/

/-- A JS runtime value, as far as the JSON round-trip of the envelope can
observe it: JSON primitives, arrays and objects, plus the two non-serializable
member shapes (`undefined` and functions). -/
inductive JSVal where
  | vnull : JSVal
  | vbool : Bool → JSVal
  | vnum : Int → JSVal
  | vstr : String → JSVal
  | varr : List JSVal → JSVal
  | vobj : List (String × JSVal) → JSVal
  | vundef : JSVal
  | vfunc : JSVal
deriving Repr

/-- Values `JSON.stringify` cannot serialize: dropped from objects, turned
into `null` inside arrays. -/
def nonSer (v : JSVal) : Bool :=
  match v with
  | .vundef => true
  | .vfunc => true
  | _ => false

mutual

/-- Model of `JSON.parse(JSON.stringify(v))` for an object or array `v`. -/
def roundTrip : JSVal → JSVal
  | .varr es => .varr (roundTripList es)
  | .vobj fs => .vobj (roundTripFields fs)
  | v => v

/-- Array elements: non-serializable members become `null`. -/
def roundTripList : List JSVal → List JSVal
  | [] => []
  | v :: vs => (if nonSer v then .vnull else roundTrip v) :: roundTripList vs

/-- Object members: non-serializable members are dropped. -/
def roundTripFields : List (String × JSVal) → List (String × JSVal)
  | [] => []
  | (k, v) :: fs => if nonSer v then roundTripFields fs else (k, roundTrip v) :: roundTripFields fs

end

mutual

/-- A value is structurally serializable when no part of it is `undefined` or
a function. -/
def serializable : JSVal → Bool
  | .varr es => serializableList es
  | .vobj fs => serializableFields fs
  | .vundef => false
  | .vfunc => false
  | _ => true

def serializableList : List JSVal → Bool
  | [] => true
  | v :: vs => serializable v && serializableList vs

def serializableFields : List (String × JSVal) → Bool
  | [] => true
  | (_, v) :: fs => serializable v && serializableFields fs

end

/-- Source `toJSONCompatible`: JSON-round-trip objects (arrays included); return
primitives unchanged (`data && typeof data === 'object'`). -/
def toJSONCompatible (v : JSVal) : JSVal :=
  match v with
  | .varr es => roundTrip (.varr es)
  | .vobj fs => roundTrip (.vobj fs)
  | v => v

/-- Source `ServerActionResult<T>`: the discriminated success/failure envelope. -/
inductive ServerActionResult (α : Type) where
  | ok (data : α)
  | fail (error : ServerActionError)

/-- Source `createResponse`: the success variant around the normalized payload,
instantiated at the JS value model. -/
def createResponse (data : JSVal) : ServerActionResult JSVal :=
  .ok (toJSONCompatible data)

/-! ## Wake-Up Reconciler (`wakeUpRun` lines 786-855) -/

/-- The slice of an `Event` the reconciler reads. -/
structure EventRec where
  eventType : String
  correlationId : Option String
deriving DecidableEq, Repr

/-- The slice of a `WorkflowRun` the reconciler reads. -/
structure RunRec where
  runId : String
  workflowName : String
  deploymentId : String
deriving DecidableEq, Repr

/-- A write issued against the World: `events.create` or `queue`. -/
inductive WorldOp where
  | createEvent (runId : String) (eventType : String) (correlationId : String)
  | enqueue (queueName : String) (payloadRunId : String) (deploymentId : String)
deriving DecidableEq, Repr

def WorldOp.isCreate : WorldOp → Bool
  | .createEvent _ _ _ => true
  | _ => false

def WorldOp.isEnqueue : WorldOp → Bool
  | .enqueue _ _ _ => true
  | _ => false

/-- Model of `eventsResult.data.filter((e) => e.eventType === 'wait_created')`. -/
def waitCreatedEvents (events : List EventRec) : List EventRec :=
  events.filter (fun e => e.eventType == "wait_created")

/-- Model of `new Set(eventsResult.data.filter((e) => e.eventType === 'wait_completed').map((e) => e.correlationId))`,
kept as the list of (possibly absent) correlationId values. -/
def waitCompletedCorrelationIds (events : List EventRec) : List (Option String) :=
  (events.filter (fun e => e.eventType == "wait_completed")).map (fun e => e.correlationId)

/-- The `pendingWaits` list of `wakeUpRun`: `wait_created` events whose
correlationId is not in the completed set, then — when a non-empty
`correlationIds` option is given — restricted to events whose correlationId is
truthy and targeted. -/
def pendingWaits (events : List EventRec) (correlationIds : Option (List String)) :
    List EventRec :=
  let base := (waitCreatedEvents events).filter
    (fun e => !((waitCompletedCorrelationIds events).contains e.correlationId))
  match correlationIds with
  | some ids =>
      if ids.length > 0 then
        base.filter (fun e => match e.correlationId with
          | some c => !(c == "") && ids.contains c
          | none => false)
      else base
  | none => base

/-- The outcome of one `wakeUpRun` call: the World writes it issued, in
program order, and the returned `stoppedCount`. -/
structure WakeUpOutcome where
  ops : List WorldOp
  stoppedCount : Nat
deriving DecidableEq, Repr

/-- Source `wakeUpRun`: resolve the run and its first event page (inputs here),
compute the pending waits, synthesize a `wait_completed` event for each
pending wait with a truthy correlationId, then — if any wait was pending —
re-enqueue the run on the queue derived from the workflow name. -/
def wakeUpRun (run : RunRec) (events : List EventRec)
    (options : Option (List String)) : WakeUpOutcome :=
  let pw := pendingWaits events options
  let createOps := pw.filterMap (fun e => match e.correlationId with
    | some c => if c == "" then none else some (WorldOp.createEvent run.runId "wait_completed" c)
    | none => none)
  let enqueueOps :=
    if pw.length > 0 then
      [WorldOp.enqueue ("__wkf_workflow_" ++ run.workflowName) run.runId run.deploymentId]
    else []
  { ops := createOps ++ enqueueOps, stoppedCount := pw.length }

/-- The `events.create` writes of an outcome. -/
def createdOf (o : WakeUpOutcome) : List WorldOp :=
  o.ops.filter WorldOp.isCreate

/-- The `queue` writes of an outcome. -/
def dispatchesOf (o : WakeUpOutcome) : List WorldOp :=
  o.ops.filter WorldOp.isEnqueue

/-! ## Association-list lookup lemmas -/

theorem lookup_mem {α β : Type} [BEq α] [LawfulBEq α] {m : List (α × β)} {k : α} {v : β}
    (h : List.lookup k m = some v) : (k, v) ∈ m := by
  induction m with
  | nil => simp [List.lookup] at h
  | cons p m ih =>
      obtain ⟨a, b⟩ := p
      rw [List.lookup_cons] at h
      split at h
      · next hka =>
          obtain rfl : b = v := by injection h
          obtain rfl : k = a := eq_of_beq hka
          exact List.mem_cons_self _ _
      · exact List.mem_cons_of_mem _ (ih h)

theorem lookup_eq_none_iff {α β : Type} [BEq α] [LawfulBEq α] {m : List (α × β)} {k : α} :
    List.lookup k m = none ↔ k ∉ m.map Prod.fst := by
  induction m with
  | nil => simp [List.lookup]
  | cons p m ih =>
      obtain ⟨a, b⟩ := p
      rw [List.lookup_cons]
      by_cases hka : k = a
      · subst hka; simp
      · have hb : (k == a) = false := by simp [hka]
        simp [hb, ih, hka]

theorem lookup_of_mem_nodup {α β : Type} [BEq α] [LawfulBEq α] {m : List (α × β)} {k : α} {v : β}
    (hm : (k, v) ∈ m) (hnd : (m.map Prod.fst).Nodup) : List.lookup k m = some v := by
  induction m with
  | nil => simp at hm
  | cons p m ih =>
      obtain ⟨a, b⟩ := p
      simp only [List.map_cons, List.nodup_cons] at hnd
      rcases List.mem_cons.mp hm with he | hm2
      · obtain ⟨rfl, rfl⟩ := Prod.mk.injEq .. ▸ And.intro (congrArg Prod.fst he) (congrArg Prod.snd he)
        rw [List.lookup_cons]
        simp
      · have hka : k ≠ a := by
          intro he2
          subst he2
          exact hnd.1 (List.mem_map.mpr ⟨(k, v), hm2, rfl⟩)
        have hb : (k == a) = false := by simp [hka]
        rw [List.lookup_cons, hb]
        exact ih hm2 hnd.2

theorem lookup_perm {α β : Type} [BEq α] [LawfulBEq α] {m₁ m₂ : List (α × β)}
    (hnd : (m₁.map Prod.fst).Nodup) (hp : List.Perm m₁ m₂) (k : α) :
    List.lookup k m₁ = List.lookup k m₂ := by
  have hnd2 : (m₂.map Prod.fst).Nodup := ((hp.map Prod.fst).nodup_iff).mp hnd
  cases h : List.lookup k m₁ with
  | some v => rw [lookup_of_mem_nodup (hp.mem_iff.mp (lookup_mem h)) hnd2]
  | none =>
      have hk := lookup_eq_none_iff.mp h
      rw [lookup_eq_none_iff.mpr (fun hk2 => hk ((hp.map Prod.fst).mem_iff.mpr hk2))]

/-- Two permuted key lists have the same JS-sorted form. -/
theorem insertionSort_eq_of_perm {l₁ l₂ : List String} (hp : List.Perm l₁ l₂) :
    List.insertionSort strLe l₁ = List.insertionSort strLe l₂ :=
  List.eq_of_perm_of_sorted
    (((List.perm_insertionSort strLe l₁).trans hp).trans (List.perm_insertionSort strLe l₂).symm)
    (List.sorted_insertionSort strLe l₁) (List.sorted_insertionSort strLe l₂)

/-- C3: for any two configuration mappings containing the same key/value pairs
in different insertion order, the Config Resolver produces identical
fingerprints (cache keys). -/
theorem cacheKey_order_independent (m₁ m₂ : EnvMap)
    (hnd : (List.map Prod.fst m₁).Nodup) (hp : List.Perm m₁ m₂) :
    cacheKey m₁ = cacheKey m₂ := by
  unfold cacheKey
  rw [insertionSort_eq_of_perm (hp.map Prod.fst)]
  exact congrArg jsonStringifyObj (List.filterMap_congr (fun k _ => by
    unfold definedEntry
    rw [lookup_perm hnd hp k]))

theorem cacheKey_order_independent_witness :
    ((List.map Prod.fst [("WORKFLOW_POSTGRES_URL", some "postgres://u:p@h/db"), ("WORKFLOW_TARGET_WORLD", some "postgres")]).Nodup ∧
      List.Perm
        ([("WORKFLOW_POSTGRES_URL", some "postgres://u:p@h/db"), ("WORKFLOW_TARGET_WORLD", some "postgres")] : EnvMap)
        [("WORKFLOW_TARGET_WORLD", some "postgres"), ("WORKFLOW_POSTGRES_URL", some "postgres://u:p@h/db")]) ∧
    cacheKey [("WORKFLOW_POSTGRES_URL", some "postgres://u:p@h/db"), ("WORKFLOW_TARGET_WORLD", some "postgres")] =
      cacheKey [("WORKFLOW_TARGET_WORLD", some "postgres"), ("WORKFLOW_POSTGRES_URL", some "postgres://u:p@h/db")] :=
  ⟨⟨by decide, by decide⟩,
    cacheKey_order_independent _ _ (by decide) (by decide)⟩

/-- Restricting a list to the elements on which `g` is defined does not change
its `filterMap`. -/
theorem filterMap_filter_isSome {α β : Type} (g : α → Option β) (l : List α) :
    (List.filter (fun a => (g a).isSome) l).filterMap g = l.filterMap g := by
  induction l with
  | nil => rfl
  | cons a l ih =>
      cases hg : g a with
      | none =>
          have hs : (g a).isSome = false := by rw [hg]; rfl
          simp [List.filter_cons, List.filterMap_cons, hg, hs, ih]
      | some b =>
          have hs : (g a).isSome = true := by rw [hg]; rfl
          simp [List.filter_cons, List.filterMap_cons, hg, hs, ih]

/-- C8 (corrected): in the fingerprint, keys bound to `undefined` are
interchangeable with absent keys — dropping every `undefined`-valued entry of
a mapping leaves its cache key unchanged. (Empty-string values are *not*
dropped; see the counterexample.) -/
theorem cacheKey_absent_values_dropped (m : EnvMap)
    (hnd : (List.map Prod.fst m).Nodup) :
    cacheKey m = cacheKey (List.filter (fun p => p.2.isSome) m) := by
  have hsub : (List.filter (fun p => p.2.isSome) m).Sublist m := List.filter_sublist m
  have hnd2 : (List.map Prod.fst (List.filter (fun p => p.2.isSome) m)).Nodup :=
    List.Nodup.sublist (hsub.map Prod.fst) hnd
  have hDE : ∀ k, definedEntry (List.filter (fun p => p.2.isSome) m) k = definedEntry m k := by
    intro k
    unfold definedEntry
    cases h : List.lookup k m with
    | none =>
        have hk : k ∉ List.map Prod.fst m := lookup_eq_none_iff.mp h
        have hk2 : k ∉ List.map Prod.fst (List.filter (fun p => p.2.isSome) m) := by
          intro hmem
          obtain ⟨p, hp, he⟩ := List.mem_map.mp hmem
          exact hk (List.mem_map.mpr ⟨p, hsub.subset hp, he⟩)
        rw [lookup_eq_none_iff.mpr hk2]
    | some ov =>
        have hm : (k, ov) ∈ m := lookup_mem h
        cases ov with
        | some v =>
            have hmem : (k, some v) ∈ List.filter (fun p => p.2.isSome) m :=
              List.mem_filter.mpr ⟨hm, rfl⟩
            rw [lookup_of_mem_nodup hmem hnd2]
        | none =>
            have hk2 : k ∉ List.map Prod.fst (List.filter (fun p => p.2.isSome) m) := by
              intro hmem
              obtain ⟨p, hp, he⟩ := List.mem_map.mp hmem
              have hpm : p ∈ m := hsub.subset hp
              have hps : p.2.isSome = true := by
                simpa using (List.mem_filter.mp hp).2
              have hpe : (k, (none : Option String)) = p :=
                List.inj_on_of_nodup_map hnd hm hpm (by simpa using he.symm)
              rw [← hpe] at hps
              simp at hps
            rw [lookup_eq_none_iff.mpr hk2]
  have heq : List.filter (fun k => (definedEntry m k).isSome) (List.map Prod.fst m)
      = List.map Prod.fst (List.filter (fun p => p.2.isSome) m) := by
    rw [List.filter_map]
    congr 1
    apply List.filter_congr
    intro p hp
    have hl : List.lookup p.1 m = some p.2 := lookup_of_mem_nodup (by simpa using hp) hnd
    simp only [Function.comp_apply]
    unfold definedEntry
    rw [hl]
    cases p.2 <;> rfl
  have hkeys :
      List.filter (fun k => (definedEntry m k).isSome)
          (List.insertionSort strLe (List.map Prod.fst m)) =
        List.insertionSort strLe (List.map Prod.fst (List.filter (fun p => p.2.isSome) m)) := by
    apply List.eq_of_perm_of_sorted (r := strLe)
    · refine List.Perm.trans (((List.perm_insertionSort strLe _).filter _)) ?_
      rw [heq]
      exact (List.perm_insertionSort strLe _).symm
    · exact List.Pairwise.sublist (List.filter_sublist _) (List.sorted_insertionSort strLe _)
    · exact List.sorted_insertionSort strLe _
  calc cacheKey m
      = jsonStringifyObj (List.filterMap (definedEntry m)
          (List.filter (fun k => (definedEntry m k).isSome)
            (List.insertionSort strLe (List.map Prod.fst m)))) := by
        unfold cacheKey
        rw [filterMap_filter_isSome]
    _ = jsonStringifyObj (List.filterMap (definedEntry m)
          (List.insertionSort strLe
            (List.map Prod.fst (List.filter (fun p => p.2.isSome) m)))) := by rw [hkeys]
    _ = cacheKey (List.filter (fun p => p.2.isSome) m) := by
        unfold cacheKey
        exact congrArg jsonStringifyObj (List.filterMap_congr (fun k _ => (hDE k).symm))

/-- C8 counterexample: a mapping binding a key to the empty string does *not*
fingerprint like the mapping with that key absent — `JSON.stringify` keeps the
empty-string entry, so the claim fails as stated for empty values. -/
theorem cacheKey_empty_value_distinct :
    cacheKey [("WORKFLOW_TARGET_WORLD", some "")] ≠ cacheKey ([] : EnvMap) := by decide

theorem cacheKey_absent_values_dropped_witness :
    (List.map Prod.fst
        ([("WORKFLOW_LOCAL_DATA_DIR", none), ("WORKFLOW_TARGET_WORLD", some "local")] : EnvMap)).Nodup ∧
    cacheKey [("WORKFLOW_LOCAL_DATA_DIR", none), ("WORKFLOW_TARGET_WORLD", some "local")] =
      cacheKey (List.filter (fun p => p.2.isSome)
        ([("WORKFLOW_LOCAL_DATA_DIR", none), ("WORKFLOW_TARGET_WORLD", some "local")] : EnvMap)) :=
  ⟨by decide, cacheKey_absent_values_dropped _ (by decide)⟩

/-- C5: the Config Resolver's precedence — if at least one process-wide
setting is present and non-empty, the process-wide set is the effective
configuration and the caller-supplied mapping is ignored entirely; when every
process-wide setting is absent or empty, the caller-supplied mapping is the
effective configuration. -/
theorem effectiveEnvMap_precedence (procEnv : String → Option String) (envMap : EnvMap) :
    ((∃ k ∈ serverEnvKeys, ∃ v, procEnv k = some v ∧ v ≠ "") →
        effectiveEnvMap procEnv envMap = buildEnvMapFromProcessEnv procEnv) ∧
    ((∀ k ∈ serverEnvKeys, procEnv k = none ∨ procEnv k = some "") →
        effectiveEnvMap procEnv envMap = envMap) := by
  have hchar : hasServerConfig (buildEnvMapFromProcessEnv procEnv) = true ↔
      ∃ k ∈ serverEnvKeys, ∃ v, procEnv k = some v ∧ v ≠ "" := by
    unfold hasServerConfig buildEnvMapFromProcessEnv
    simp only [List.any_eq_true, List.mem_map]
    constructor
    · rintro ⟨p, ⟨k, hk, rfl⟩, hpred⟩
      cases hv : procEnv k with
      | none => rw [hv] at hpred; simp at hpred
      | some v =>
          rw [hv] at hpred
          refine ⟨k, hk, v, hv, ?_⟩
          simpa using hpred
    · rintro ⟨k, hk, v, hv, hne⟩
      refine ⟨(k, procEnv k), ⟨k, hk, rfl⟩, ?_⟩
      rw [hv]
      simpa using hne
  constructor
  · intro hex
    unfold effectiveEnvMap
    rw [if_pos (hchar.mpr hex)]
  · intro hall
    have hb : hasServerConfig (buildEnvMapFromProcessEnv procEnv) = false := by
      cases hb : hasServerConfig (buildEnvMapFromProcessEnv procEnv) with
      | false => rfl
      | true =>
          obtain ⟨k, hk, v, hv, hne⟩ := hchar.mp hb
          rcases hall k hk with h | h
          · rw [h] at hv; exact absurd hv (by simp)
          · rw [h] at hv
            injection hv with hv2
            exact absurd hv2.symm hne
    unfold effectiveEnvMap
    rw [hb]
    simp

theorem effectiveEnvMap_precedence_witness :
    ((∃ k ∈ serverEnvKeys, ∃ v,
        (fun q => if q = "WORKFLOW_TARGET_WORLD" then some "local" else none) k = some v ∧ v ≠ "") ∧
      effectiveEnvMap (fun q => if q = "WORKFLOW_TARGET_WORLD" then some "local" else none)
          [("WORKFLOW_POSTGRES_URL", some "x")] =
        buildEnvMapFromProcessEnv (fun q => if q = "WORKFLOW_TARGET_WORLD" then some "local" else none)) ∧
    effectiveEnvMap (fun _ => none) [("WORKFLOW_POSTGRES_URL", some "x")] =
      [("WORKFLOW_POSTGRES_URL", some "x")] :=
  ⟨⟨⟨"WORKFLOW_TARGET_WORLD", by decide, "local", by decide, by decide⟩,
    (effectiveEnvMap_precedence _ _).1 ⟨"WORKFLOW_TARGET_WORLD", by decide, "local", by decide, by decide⟩⟩,
   (effectiveEnvMap_precedence _ _).2 (fun k _ => Or.inl rfl)⟩

/-- On a cache hit for the computed key, `getWorldFromEnv` returns the cached
handle and leaves the state untouched. -/
theorem getWorldFromEnv_hit {e : EnvMap} {s : CacheState} {w : Nat}
    (h : List.lookup (effectiveCacheKey e s) s.worldCache = some w) :
    getWorldFromEnv e s = (w, s) := by
  unfold effectiveCacheKey at h
  unfold getWorldFromEnv
  simp only [h]

/-- On a cache miss, `getWorldFromEnv` constructs the next handle, applies the
effective configuration to `process.env` and caches the handle under the key. -/
theorem getWorldFromEnv_miss {e : EnvMap} {s : CacheState}
    (h : List.lookup (effectiveCacheKey e s) s.worldCache = none) :
    getWorldFromEnv e s =
      (s.nextWorldId,
        { worldCache := (effectiveCacheKey e s, s.nextWorldId) :: s.worldCache
          nextWorldId := s.nextWorldId + 1
          procEnv := applyEnvMap (effectiveEnvMap s.procEnv e) s.procEnv }) := by
  unfold effectiveCacheKey at h ⊢
  unfold getWorldFromEnv
  simp only [h]

/-- After any call, the key that call computed is cached and maps to the
returned handle. -/
theorem getWorldFromEnv_lookup_result (e : EnvMap) (s : CacheState) :
    List.lookup (effectiveCacheKey e s) (getWorldFromEnv e s).2.worldCache
      = some (getWorldFromEnv e s).1 := by
  cases h : List.lookup (effectiveCacheKey e s) s.worldCache with
  | some w => rw [getWorldFromEnv_hit h]; exact h
  | none =>
      rw [getWorldFromEnv_miss h]
      rw [List.lookup_cons]
      simp

/-- C4: starting from a well-formed cache state, a second call computing the
same fingerprint returns the cached handle and constructs nothing (the state
is unchanged), while a second call computing a different fingerprint returns a
different handle instance. -/
theorem getWorldFromEnv_cache_correct (s : CacheState) (e₁ e₂ : EnvMap) (hwf : CacheWF s) :
    (effectiveCacheKey e₂ (getWorldFromEnv e₁ s).2 = effectiveCacheKey e₁ s →
        getWorldFromEnv e₂ (getWorldFromEnv e₁ s).2 = getWorldFromEnv e₁ s) ∧
    (effectiveCacheKey e₂ (getWorldFromEnv e₁ s).2 ≠ effectiveCacheKey e₁ s →
        (getWorldFromEnv e₂ (getWorldFromEnv e₁ s).2).1 ≠ (getWorldFromEnv e₁ s).1) := by
  constructor
  · intro hkeq
    have h2 : List.lookup (effectiveCacheKey e₂ (getWorldFromEnv e₁ s).2)
        (getWorldFromEnv e₁ s).2.worldCache = some (getWorldFromEnv e₁ s).1 := by
      rw [hkeq]; exact getWorldFromEnv_lookup_result e₁ s
    rw [getWorldFromEnv_hit h2]
  · intro hkne
    cases h1 : List.lookup (effectiveCacheKey e₁ s) s.worldCache with
    | some w =>
        have hr1 : getWorldFromEnv e₁ s = (w, s) := getWorldFromEnv_hit h1
        rw [hr1] at hkne ⊢
        cases h2 : List.lookup (effectiveCacheKey e₂ s) s.worldCache with
        | some w2 =>
            rw [getWorldFromEnv_hit h2]
            intro hww
            have hm2 : (effectiveCacheKey e₂ (w, s).2, w2) ∈ s.worldCache := lookup_mem h2
            have hm1 : (effectiveCacheKey e₁ s, w) ∈ s.worldCache := lookup_mem h1
            have heq := List.inj_on_of_nodup_map hwf.1 hm2 hm1 hww
            exact hkne (congrArg Prod.fst heq)
        | none =>
            rw [getWorldFromEnv_miss h2]
            intro hww
            have hlt : w < s.nextWorldId := hwf.2 _ (lookup_mem h1)
            simp only at hww
            omega
    | none =>
        have hr1 := getWorldFromEnv_miss h1
        rw [hr1] at hkne ⊢
        cases h2 : List.lookup
            (effectiveCacheKey e₂ (s.nextWorldId,
              { worldCache := (effectiveCacheKey e₁ s, s.nextWorldId) :: s.worldCache
                nextWorldId := s.nextWorldId + 1
                procEnv := applyEnvMap (effectiveEnvMap s.procEnv e₁) s.procEnv : CacheState}).2)
            ((effectiveCacheKey e₁ s, s.nextWorldId) :: s.worldCache) with
        | some w2 =>
            rw [getWorldFromEnv_hit h2]
            rw [List.lookup_cons] at h2
            have hbf : (effectiveCacheKey e₂ (s.nextWorldId,
              { worldCache := (effectiveCacheKey e₁ s, s.nextWorldId) :: s.worldCache
                nextWorldId := s.nextWorldId + 1
                procEnv := applyEnvMap (effectiveEnvMap s.procEnv e₁) s.procEnv : CacheState}).2
                == effectiveCacheKey e₁ s) = false := by
              simpa using hkne
            rw [hbf] at h2
            have hlt : w2 < s.nextWorldId := hwf.2 _ (lookup_mem h2)
            simp only
            omega
        | none =>
            rw [getWorldFromEnv_miss h2]
            simp only
            omega

theorem getWorldFromEnv_cache_correct_witness :
    (CacheWF ⟨[], 0, fun _ => none⟩ ∧
      getWorldFromEnv [("WORKFLOW_TARGET_WORLD", some "x")]
          (getWorldFromEnv [("WORKFLOW_TARGET_WORLD", some "x")] ⟨[], 0, fun _ => none⟩).2 =
        getWorldFromEnv [("WORKFLOW_TARGET_WORLD", some "x")] ⟨[], 0, fun _ => none⟩) ∧
    (getWorldFromEnv [("WORKFLOW_TARGET_WORLD", some "x")]
        (getWorldFromEnv ([] : EnvMap) ⟨[], 0, fun _ => none⟩).2).1 ≠
      (getWorldFromEnv ([] : EnvMap) ⟨[], 0, fun _ => none⟩).1 :=
  ⟨⟨⟨by simp, by simp⟩,
    (getWorldFromEnv_cache_correct ⟨[], 0, fun _ => none⟩ _ _ ⟨by simp, by simp⟩).1 (by decide)⟩,
   (getWorldFromEnv_cache_correct ⟨[], 0, fun _ => none⟩ _ _ ⟨by simp, by simp⟩).2 (by decide)⟩

/-! ## Response Envelope: round-trip lemmas -/

mutual

theorem roundTrip_eq_self (v : JSVal) (h : serializable v = true) : roundTrip v = v := by
  cases v with
  | varr es => simp [roundTrip, roundTripList_eq_self es (by simpa [serializable] using h)]
  | vobj fs => simp [roundTrip, roundTripFields_eq_self fs (by simpa [serializable] using h)]
  | vundef => simp [serializable] at h
  | vfunc => simp [serializable] at h
  | vnull => simp [roundTrip]
  | vbool b => simp [roundTrip]
  | vnum n => simp [roundTrip]
  | vstr s => simp [roundTrip]

theorem roundTripList_eq_self (es : List JSVal) (h : serializableList es = true) :
    roundTripList es = es := by
  cases es with
  | nil => simp [roundTripList]
  | cons v vs =>
      simp only [serializableList, Bool.and_eq_true] at h
      have hv : nonSer v = false := by
        cases v <;> simp_all [nonSer, serializable]
      simp [roundTripList, hv, roundTrip_eq_self v h.1, roundTripList_eq_self vs h.2]

theorem roundTripFields_eq_self (fs : List (String × JSVal)) (h : serializableFields fs = true) :
    roundTripFields fs = fs := by
  cases fs with
  | nil => simp [roundTripFields]
  | cons p fs =>
      obtain ⟨k, v⟩ := p
      simp only [serializableFields, Bool.and_eq_true] at h
      have hv : nonSer v = false := by
        cases v <;> simp_all [nonSer, serializable]
      simp [roundTripFields, hv, roundTrip_eq_self v h.1, roundTripFields_eq_self fs h.2]

end

mutual

theorem serializable_roundTrip (v : JSVal) (h : nonSer v = false) :
    serializable (roundTrip v) = true := by
  cases v with
  | varr es => simpa [roundTrip, serializable] using serializableList_roundTripList es
  | vobj fs => simpa [roundTrip, serializable] using serializableFields_roundTripFields fs
  | vundef => simp [nonSer] at h
  | vfunc => simp [nonSer] at h
  | vnull => simp [roundTrip, serializable]
  | vbool b => simp [roundTrip, serializable]
  | vnum n => simp [roundTrip, serializable]
  | vstr s => simp [roundTrip, serializable]

theorem serializableList_roundTripList (es : List JSVal) :
    serializableList (roundTripList es) = true := by
  cases es with
  | nil => simp [roundTripList, serializableList]
  | cons v vs =>
      cases hv : nonSer v with
      | true =>
          simp [roundTripList, hv, serializableList, serializable,
            serializableList_roundTripList vs]
      | false =>
          simp [roundTripList, hv, serializableList, serializable_roundTrip v hv,
            serializableList_roundTripList vs]

theorem serializableFields_roundTripFields (fs : List (String × JSVal)) :
    serializableFields (roundTripFields fs) = true := by
  cases fs with
  | nil => simp [roundTripFields, serializableFields]
  | cons p fs =>
      obtain ⟨k, v⟩ := p
      cases hv : nonSer v with
      | true => simpa [roundTripFields, hv] using serializableFields_roundTripFields fs
      | false =>
          simp [roundTripFields, hv, serializableFields, serializable_roundTrip v hv,
            serializableFields_roundTripFields fs]

end

/-- The keys surviving the object round-trip are exactly the keys of the
serializable-valued members. -/
theorem map_fst_roundTripFields (fs : List (String × JSVal)) :
    (roundTripFields fs).map Prod.fst = (fs.filter (fun p => !nonSer p.2)).map Prod.fst := by
  induction fs with
  | nil => simp [roundTripFields]
  | cons p fs ih =>
      obtain ⟨k, v⟩ := p
      cases hv : nonSer v with
      | true => simp [roundTripFields, List.filter_cons, hv, ih]
      | false => simp [roundTripFields, List.filter_cons, hv, ih]

/-- C7: `wrapSuccess` returns the success variant; a structurally serializable
payload comes back unchanged, and an object payload with non-serializable
members comes back with those members absent (and fully serializable), without
raising. -/
theorem createResponse_roundtrip (v : JSVal) (fs : List (String × JSVal))
    (hser : serializable v = true) (hnd : (fs.map Prod.fst).Nodup) :
    createResponse v = .ok v ∧
    ∃ gs, createResponse (.vobj fs) = .ok (.vobj gs) ∧ serializable (.vobj gs) = true ∧
      ∀ k val, (k, val) ∈ fs → nonSer val = true → ¬ k ∈ gs.map Prod.fst := by
  constructor
  · cases v with
    | varr es => simp [createResponse, toJSONCompatible, roundTrip_eq_self _ hser]
    | vobj gs => simp [createResponse, toJSONCompatible, roundTrip_eq_self _ hser]
    | vnull => rfl
    | vbool b => rfl
    | vnum n => rfl
    | vstr s => rfl
    | vundef => rfl
    | vfunc => rfl
  · refine ⟨roundTripFields fs, by simp [createResponse, toJSONCompatible, roundTrip], ?_, ?_⟩
    · simpa [serializable] using serializableFields_roundTripFields fs
    · intro k val hmem hns hkmem
      rw [map_fst_roundTripFields] at hkmem
      obtain ⟨p, hp, he⟩ := List.mem_map.mp hkmem
      have hpm : p ∈ fs := (List.mem_filter.mp hp).1
      have hpn : (!nonSer p.2) = true := (List.mem_filter.mp hp).2
      have hpe : (k, val) = p := List.inj_on_of_nodup_map hnd hmem hpm (by simpa using he.symm)
      rw [← hpe] at hpn
      simp only [Bool.not_eq_true'] at hpn
      rw [hns] at hpn
      exact Bool.true_eq_false ▸ hpn ▸ rfl

theorem createResponse_roundtrip_witness :
    (serializable (.vnum 1) = true ∧
      (List.map Prod.fst [("f", JSVal.vfunc), ("x", JSVal.vnum 2)]).Nodup) ∧
    (createResponse (.vnum 1) = .ok (.vnum 1) ∧
      ∃ gs, createResponse (.vobj [("f", JSVal.vfunc), ("x", JSVal.vnum 2)]) = .ok (.vobj gs) ∧
        serializable (.vobj gs) = true ∧
        ∀ k val, (k, val) ∈ [("f", JSVal.vfunc), ("x", JSVal.vnum 2)] → nonSer val = true →
          ¬ k ∈ gs.map Prod.fst) :=
  ⟨⟨by simp [serializable], by decide⟩,
    createResponse_roundtrip (.vnum 1) [("f", JSVal.vfunc), ("x", JSVal.vnum 2)]
      (by simp [serializable]) (by decide)⟩

/-! ## Error Classifier: decision-table theorems -/

/-- The message derivation exactly as claim C2 words it: 401/403 access-denied
text, 404 not-found text, 500 connectivity text, otherwise a network message
when the text matches network/fetch vocabulary, else the failure's own
message. -/
def messagePerClaimC2 (ownMsg : String) (status : Option Nat) : String :=
  if status = some 403 ∨ status = some 401 then
    "Access denied. Please check your credentials and permissions."
  else if status = some 404 then "The requested resource was not found."
  else if status = some 500 then "Error connecting to World backend, please try again later."
  else if strContains ownMsg "Network" || strContains ownMsg "fetch" then
    "Network error. Please check your connection and try again."
  else ownMsg

/-- The amended message derivation for store-boundary failures: an absent (or
zero) status gets the error-creating-response prefix; 401/403/404/500 get
their generic texts; any other status gets a network message on network/fetch
vocabulary, else the failure's own message when non-empty, else a generic
unexpected-error text. -/
def messageAmendedC2 (ownMsg : String) (status : Option Nat) : String :=
  match status with
  | none => "Error creating response: " ++ ownMsg
  | some s =>
      if s = 0 then "Error creating response: " ++ ownMsg
      else if s = 403 ∨ s = 401 then
        "Access denied. Please check your credentials and permissions."
      else if s = 404 then "The requested resource was not found."
      else if s = 500 then "Error connecting to World backend, please try again later."
      else if strContains ownMsg "Network" || strContains ownMsg "fetch" then
        "Network error. Please check your connection and try again."
      else if ownMsg = "" then "An unexpected error occurred"
      else ownMsg

theorem getUserFacingErrorMessage_eq_amended (m : String) (status : Option Nat) :
    getUserFacingErrorMessage m status = messageAmendedC2 m status := by
  cases status with
  | none => simp [getUserFacingErrorMessage, messageAmendedC2]
  | some s => simp [getUserFacingErrorMessage, messageAmendedC2]

/-- C2 counterexample: the classifier's message does not follow the claim's
derivation as stated — an empty own-message falls back to a generic
unexpected-error text, and an absent or zero status on a store-boundary
failure yields the error-creating-response prefix instead of the failure's
own message. -/
theorem classifier_message_literal_reading_fails :
    ¬ ((createServerActionError (.apiError "" none (some 418) none none) "world.runs.get" none).message
        = messagePerClaimC2 "" (some 418)) ∧
    ¬ ((createServerActionError (.apiError "boom" none none none none) "world.runs.get" none).message
        = messagePerClaimC2 "boom" none) ∧
    ¬ ((createServerActionError (.apiError "boom" none (some 0) none none) "world.runs.get" none).message
        = messagePerClaimC2 "boom" (some 0)) := by
  refine ⟨by decide, by decide, by decide⟩

/-- C2 (corrected): the Error Classifier follows the decision table in order —
a store-boundary failure yields layer `'API'` (the spec's "store") with
status/url/code recorded and the amended status-derived message; a dedicated
run-not-found failure yields layer `'API'` with status forced to 404 and the
not-found message; every other failure yields layer `'server'`, status 500 and
the error-creating-response prefix plus the raw message; all branches populate
`cause` and `request.operation`/`request.params`. -/
theorem createServerActionError_decision_table (error : RawFailure) (operation : String)
    (requestParams : Option (List (String × String))) :
    createServerActionError error operation requestParams =
      match error with
      | .apiError m st status url code =>
          { message := messageAmendedC2 m status
            layer := .API
            cause := causeText m st
            request := { operation, params := requestParams.getD [], status, url, code } }
      | .runNotFound m st =>
          { message := "The requested resource was not found."
            layer := .API
            cause := causeText m st
            request := { operation, params := requestParams.getD [], status := some 404,
                         url := none, code := none } }
      | .other m st =>
          { message := "Error creating response: " ++ m
            layer := .server
            cause := causeText m st
            request := { operation, params := requestParams.getD [], status := some 500,
                         url := none, code := none } } := by
  cases error with
  | apiError m st status url code =>
      simp only [createServerActionError, getUserFacingErrorMessage_eq_amended]
  | runNotFound m st => simp [createServerActionError, getUserFacingErrorMessage]
  | other m st => simp [createServerActionError, getUserFacingErrorMessage]

/-! ## Wake-Up Reconciler: claim-side definitions and lemmas -/

/-- The correlationIds carried by `wait_completed` events, read as claim C1
words it: the actual identifiers present on completed events. -/
def completedCorrIdsPerClaim (events : List EventRec) : List String :=
  (events.filter (fun e => e.eventType == "wait_completed")).filterMap (fun e => e.correlationId)

/-- Pending waits exactly as claim C1 words them: `wait_created` events whose
correlationId is absent from the set of correlationIds carried by
`wait_completed` events, restricted — when `targetCorrelationIds` is given
and non-empty — to those whose correlationId is in the supplied list. -/
def pendingPerClaimC1 (events : List EventRec) (targets : Option (List String)) :
    List EventRec :=
  (events.filter (fun e => e.eventType == "wait_created")).filter (fun e =>
    (match e.correlationId with
     | some c => !((completedCorrIdsPerClaim events).contains c)
     | none => true) &&
    (match targets with
     | some ids =>
         if ids.isEmpty then true
         else match e.correlationId with
              | some c => ids.contains c
              | none => false
     | none => true))

/-- Pending waits as amended: membership in the completed set compares the
optional correlationId values directly (an event without a correlationId is
considered completed when some `wait_completed` event also lacks one), and
the target restriction keeps only events carrying a non-empty correlationId
listed in `targetCorrelationIds`. -/
def pendingAmendedC1 (events : List EventRec) (targets : Option (List String)) :
    List EventRec :=
  events.filter (fun e =>
    e.eventType == "wait_created" &&
    !((events.filter (fun e2 => e2.eventType == "wait_completed")).map
        (fun e2 => e2.correlationId)).contains e.correlationId &&
    (match targets with
     | some ids =>
         if ids.isEmpty then true
         else match e.correlationId with
              | some c => !(c == "") && ids.contains c
              | none => false
     | none => true))

/-- One synthesized `wait_completed` event per pending wait with a non-empty
correlationId, carrying the same correlationId. -/
def synthesizedFor (runId : String) (pending : List EventRec) : List WorldOp :=
  pending.filterMap (fun e => match e.correlationId with
    | some c => if c = "" then none else some (WorldOp.createEvent runId "wait_completed" c)
    | none => none)

theorem wakeUpRun_ops (run : RunRec) (events : List EventRec)
    (options : Option (List String)) :
    (wakeUpRun run events options).ops =
      (pendingWaits events options).filterMap (fun e => match e.correlationId with
        | some c => if c == "" then none
                    else some (WorldOp.createEvent run.runId "wait_completed" c)
        | none => none) ++
      (if (pendingWaits events options).length > 0 then
        [WorldOp.enqueue ("__wkf_workflow_" ++ run.workflowName) run.runId run.deploymentId]
      else []) := rfl

theorem wakeUpRun_stoppedCount (run : RunRec) (events : List EventRec)
    (options : Option (List String)) :
    (wakeUpRun run events options).stoppedCount = (pendingWaits events options).length := rfl

/-- Every operation the synthesis loop emits is an `events.create`. -/
theorem mem_createOps {runId : String} {pw : List EventRec} {a : WorldOp}
    (ha : a ∈ pw.filterMap (fun e => match e.correlationId with
      | some c => if c == "" then none
                  else some (WorldOp.createEvent runId "wait_completed" c)
      | none => none)) :
    ∃ c, a = WorldOp.createEvent runId "wait_completed" c := by
  obtain ⟨e, _, hfe⟩ := List.mem_filterMap.mp ha
  cases hce : e.correlationId with
  | none => rw [hce] at hfe; exact absurd hfe (by simp)
  | some c =>
      rw [hce] at hfe
      have hfe2 : (if c == "" then (none : Option WorldOp)
          else some (WorldOp.createEvent runId "wait_completed" c)) = some a := hfe
      by_cases hcc : (c == "") = true
      · rw [if_pos hcc] at hfe2; exact absurd hfe2 (by simp)
      · rw [if_neg hcc] at hfe2
        injection hfe2 with hfe3
        exact ⟨c, hfe3.symm⟩

theorem filter_isEnqueue_creates (runId : String) (pw : List EventRec) :
    List.filter WorldOp.isEnqueue (pw.filterMap (fun e => match e.correlationId with
      | some c => if c == "" then none
                  else some (WorldOp.createEvent runId "wait_completed" c)
      | none => none)) = [] := by
  rw [List.filter_eq_nil_iff]
  intro a ha
  obtain ⟨c, rfl⟩ := mem_createOps ha
  simp [WorldOp.isEnqueue]

theorem filter_isCreate_creates (runId : String) (pw : List EventRec) :
    List.filter WorldOp.isCreate (pw.filterMap (fun e => match e.correlationId with
      | some c => if c == "" then none
                  else some (WorldOp.createEvent runId "wait_completed" c)
      | none => none)) =
      pw.filterMap (fun e => match e.correlationId with
        | some c => if c == "" then none
                    else some (WorldOp.createEvent runId "wait_completed" c)
        | none => none) := by
  rw [List.filter_eq_self]
  intro a ha
  obtain ⟨c, rfl⟩ := mem_createOps ha
  simp [WorldOp.isCreate]

/-- The staged filters of `wakeUpRun` compute the amended single-pass pending
set. -/
theorem pendingWaits_eq_amended (events : List EventRec) (targets : Option (List String)) :
    pendingWaits events targets = pendingAmendedC1 events targets := by
  have hb3 : ∀ a b c : Bool, ((c && b) && a) = ((a && b) && c) := by decide
  unfold pendingWaits pendingAmendedC1 waitCreatedEvents waitCompletedCorrelationIds
  cases targets with
  | none =>
      rw [List.filter_filter]
      exact List.filter_congr (fun e _ => by rw [Bool.and_true, Bool.and_comm])
  | some ids =>
      cases ids with
      | nil =>
          simp only [List.length_nil, gt_iff_lt, lt_irrefl, if_false, List.isEmpty_nil, if_true]
          rw [List.filter_filter]
          exact List.filter_congr (fun e _ => by rw [Bool.and_true, Bool.and_comm])
      | cons i is =>
          simp only [List.length_cons, List.isEmpty_cons]
          rw [if_pos (Nat.succ_pos _)]
          rw [List.filter_filter, List.filter_filter]
          refine List.filter_congr (fun e _ => ?_)
          simp only [Bool.false_eq_true, if_false]
          exact hb3 _ _ _

/-- C1 counterexample: read literally, the claim's pending-set fails against
the code on two inputs — a `wait_created`/`wait_completed` pair that both lack
a correlationId (the code treats the wait as completed via the `undefined`
set member, the claim leaves it pending), and an empty-string correlationId
targeted by the filter (the claim keeps it, the code's truthiness test drops
it). -/
theorem wakeUpRun_pending_literal_reading_fails :
    ¬ ((wakeUpRun ⟨"r1", "wf", "d1"⟩ [⟨"wait_created", none⟩, ⟨"wait_completed", none⟩] none).stoppedCount
        = (pendingPerClaimC1 [⟨"wait_created", none⟩, ⟨"wait_completed", none⟩] none).length) ∧
    ¬ ((wakeUpRun ⟨"r1", "wf", "d1"⟩ [⟨"wait_created", some ""⟩] (some [""])).stoppedCount
        = (pendingPerClaimC1 [⟨"wait_created", some ""⟩] (some [""])).length) := by
  refine ⟨by decide, by decide⟩

/-- C1 (corrected): `wakeUpRun` returns `stoppedCount` equal to the size of
the amended pending set — `wait_created` events whose optional correlationId
value does not appear among the correlationId values of `wait_completed`
events, restricted (when a non-empty target list is supplied) to events
carrying a non-empty listed correlationId — and synthesizes exactly one
`wait_completed` event with the same correlationId for each pending wait
whose correlationId is non-empty. -/
theorem wakeUpRun_stoppedCount_synthesis (run : RunRec) (events : List EventRec)
    (options : Option (List String)) :
    (wakeUpRun run events options).stoppedCount = (pendingAmendedC1 events options).length ∧
    createdOf (wakeUpRun run events options) =
      synthesizedFor run.runId (pendingAmendedC1 events options) := by
  constructor
  · rw [wakeUpRun_stoppedCount, pendingWaits_eq_amended]
  · unfold createdOf
    rw [wakeUpRun_ops, List.filter_append, filter_isCreate_creates]
    have henil : List.filter WorldOp.isCreate
        (if (pendingWaits events options).length > 0 then
          [WorldOp.enqueue ("__wkf_workflow_" ++ run.workflowName) run.runId run.deploymentId]
        else []) = [] := by
      by_cases hp : (pendingWaits events options).length > 0
      · rw [if_pos hp]; simp [WorldOp.isCreate]
      · rw [if_neg hp]; rfl
    rw [henil, List.append_nil, pendingWaits_eq_amended]
    unfold synthesizedFor
    refine List.filterMap_congr (fun e _ => ?_)
    cases hce : e.correlationId with
    | none => rfl
    | some c =>
        by_cases hc : c = ""
        · subst hc; simp
        · have hcb : (c == "") = false := by simp [hc]
          simp [hcb, hc]

/-- C6: the re-dispatch enqueue — addressed to the queue derived from the
workflow name and carrying the runId and deploymentId — is issued exactly
when the pending set is non-empty; with zero pending waits no event is
synthesized, no dispatch is issued and `stoppedCount` is 0. -/
theorem wakeUpRun_dispatch_iff_pending (run : RunRec) (events : List EventRec)
    (options : Option (List String)) :
    dispatchesOf (wakeUpRun run events options) =
      (if (pendingWaits events options).length > 0 then
        [WorldOp.enqueue ("__wkf_workflow_" ++ run.workflowName) run.runId run.deploymentId]
      else []) ∧
    (pendingWaits events options = [] →
      (wakeUpRun run events options).ops = [] ∧
        (wakeUpRun run events options).stoppedCount = 0) := by
  constructor
  · unfold dispatchesOf
    rw [wakeUpRun_ops, List.filter_append, filter_isEnqueue_creates, List.nil_append]
    by_cases hp : (pendingWaits events options).length > 0
    · rw [if_pos hp]; simp [WorldOp.isEnqueue]
    · rw [if_neg hp]; rfl
  · intro hpe
    constructor
    · rw [wakeUpRun_ops, hpe]
      simp
    · rw [wakeUpRun_stoppedCount, hpe]
      rfl

theorem wakeUpRun_dispatch_iff_pending_witness :
    pendingWaits [] none = [] ∧
    ((wakeUpRun ⟨"r1", "order", "dep1"⟩ [] none).ops = [] ∧
      (wakeUpRun ⟨"r1", "order", "dep1"⟩ [] none).stoppedCount = 0) :=
  ⟨rfl, (wakeUpRun_dispatch_iff_pending ⟨"r1", "order", "dep1"⟩ [] none).2 rfl⟩

/-- In a concatenation whose left part satisfies no `q` and whose right part
satisfies no `p`, a `p`-position precedes every `q`-position. -/
theorem append_index_lt {α : Type} (l₁ l₂ : List α) (p q : α → Bool)
    (h₁ : ∀ x ∈ l₁, q x = false) (h₂ : ∀ x ∈ l₂, p x = false)
    (i j : Nat) (hi : i < (l₁ ++ l₂).length) (hj : j < (l₁ ++ l₂).length)
    (hpi : p ((l₁ ++ l₂).get ⟨i, hi⟩) = true) (hqj : q ((l₁ ++ l₂).get ⟨j, hj⟩) = true) :
    i < j := by
  have hil : i < l₁.length := by
    by_contra hge
    push_neg at hge
    have hmem : (l₁ ++ l₂).get ⟨i, hi⟩ ∈ l₂ := by
      rw [List.get_eq_getElem, List.getElem_append_right hge]
      exact List.getElem_mem _
    rw [h₂ _ hmem] at hpi
    exact Bool.false_ne_true hpi
  have hjl : l₁.length ≤ j := by
    by_contra hlt
    push_neg at hlt
    have hmem : (l₁ ++ l₂).get ⟨j, hj⟩ ∈ l₁ := by
      rw [List.get_eq_getElem, List.getElem_append_left hlt]
      exact List.getElem_mem _
    rw [h₁ _ hmem] at hqj
    exact Bool.false_ne_true hqj
  omega

/-- C9: within one `wakeUpRun` call, every `events.create` write appears in
the issued-operation order strictly before any enqueue write — the dispatch is
only issued after all synthesis writes have been accepted. -/
theorem wakeUpRun_synthesis_before_dispatch (run : RunRec) (events : List EventRec)
    (options : Option (List String)) (i j : Nat)
    (hi : i < (wakeUpRun run events options).ops.length)
    (hj : j < (wakeUpRun run events options).ops.length)
    (hci : ((wakeUpRun run events options).ops.get ⟨i, hi⟩).isCreate = true)
    (hcj : ((wakeUpRun run events options).ops.get ⟨j, hj⟩).isEnqueue = true) :
    i < j := by
  refine append_index_lt
    ((pendingWaits events options).filterMap (fun e => match e.correlationId with
      | some c => if c == "" then none
                  else some (WorldOp.createEvent run.runId "wait_completed" c)
      | none => none))
    (if (pendingWaits events options).length > 0 then
      [WorldOp.enqueue ("__wkf_workflow_" ++ run.workflowName) run.runId run.deploymentId]
    else [])
    WorldOp.isCreate WorldOp.isEnqueue ?_ ?_ i j hi hj hci hcj
  · intro x hx
    obtain ⟨c, rfl⟩ := mem_createOps hx
    rfl
  · intro x hx
    by_cases hp : (pendingWaits events options).length > 0
    · rw [if_pos hp] at hx
      rcases List.mem_singleton.mp hx with rfl
      rfl
    · rw [if_neg hp] at hx
      exact absurd hx (List.not_mem_nil x)

theorem wakeUpRun_synthesis_before_dispatch_witness :
    (((wakeUpRun ⟨"r1", "order", "dep1"⟩ [⟨"wait_created", some "A"⟩] none).ops.get
        ⟨0, by decide⟩).isCreate = true ∧
      ((wakeUpRun ⟨"r1", "order", "dep1"⟩ [⟨"wait_created", some "A"⟩] none).ops.get
        ⟨1, by decide⟩).isEnqueue = true) ∧
    (0 : Nat) < 1 :=
  ⟨⟨by decide, by decide⟩,
    wakeUpRun_synthesis_before_dispatch ⟨"r1", "order", "dep1"⟩ [⟨"wait_created", some "A"⟩]
      none 0 1 (by decide) (by decide) (by decide) (by decide)⟩

/-- C10: with no filter, pending `wait_created` events that lack a
correlationId are counted in `stoppedCount` and trigger the dispatch even
though no event is synthesized for them; any non-empty target list excludes
such events from the pending set entirely. -/
theorem wakeUpRun_counts_missing_correlation (run : RunRec) (events : List EventRec)
    (ids : List String)
    (hne : pendingWaits events none ≠ [])
    (hall : ∀ e ∈ pendingWaits events none, e.correlationId = none)
    (hids : ids ≠ []) :
    0 < (wakeUpRun run events none).stoppedCount ∧
    dispatchesOf (wakeUpRun run events none) =
      [WorldOp.enqueue ("__wkf_workflow_" ++ run.workflowName) run.runId run.deploymentId] ∧
    createdOf (wakeUpRun run events none) = [] ∧
    ∀ e ∈ pendingWaits events (some ids), e.correlationId ≠ none := by
  have hpos : 0 < (pendingWaits events none).length := List.length_pos.mpr hne
  refine ⟨?_, ?_, ?_, ?_⟩
  · rw [wakeUpRun_stoppedCount]; exact hpos
  · unfold dispatchesOf
    rw [wakeUpRun_ops, List.filter_append, filter_isEnqueue_creates, List.nil_append,
      if_pos hpos]
    simp [WorldOp.isEnqueue]
  · unfold createdOf
    rw [wakeUpRun_ops, List.filter_append, filter_isCreate_creates]
    have hnil : (pendingWaits events none).filterMap (fun e => match e.correlationId with
        | some c => if c == "" then none
                    else some (WorldOp.createEvent run.runId "wait_completed" c)
        | none => none) = [] := by
      rw [List.filterMap_eq_nil_iff]
      intro e he
      rw [hall e he]
    rw [hnil, List.nil_append, if_pos hpos]
    simp [WorldOp.isCreate]
  · intro e he hno
    have hlen : ids.length > 0 := by
      cases ids with
      | nil => exact absurd rfl hids
      | cons i is => exact Nat.succ_pos _
    simp only [pendingWaits] at he
    rw [if_pos hlen] at he
    have hpred := (List.mem_filter.mp he).2
    rw [hno] at hpred
    simp at hpred

theorem wakeUpRun_counts_missing_correlation_witness :
    (pendingWaits [⟨"wait_created", none⟩] none ≠ [] ∧
      (∀ e ∈ pendingWaits [⟨"wait_created", none⟩] none, e.correlationId = none) ∧
      (["A"] : List String) ≠ []) ∧
    (0 < (wakeUpRun ⟨"r1", "order", "dep1"⟩ [⟨"wait_created", none⟩] none).stoppedCount ∧
      dispatchesOf (wakeUpRun ⟨"r1", "order", "dep1"⟩ [⟨"wait_created", none⟩] none) =
        [WorldOp.enqueue "__wkf_workflow_order" "r1" "dep1"] ∧
      createdOf (wakeUpRun ⟨"r1", "order", "dep1"⟩ [⟨"wait_created", none⟩] none) = [] ∧
      ∀ e ∈ pendingWaits [⟨"wait_created", none⟩] (some ["A"]), e.correlationId ≠ none) :=
  ⟨⟨by decide, by decide, by decide⟩,
    wakeUpRun_counts_missing_correlation ⟨"r1", "order", "dep1"⟩ [⟨"wait_created", none⟩]
      ["A"] (by decide) (by decide) (by decide)⟩
